import Mathlib

/-!
# Verification of the memory MCP server storage engine

A shallow embedding of the storage engine in `memory_mcp_server.py`:
the Markdown flat-file backend (`MarkdownMemoryManager`), the SQLite
backend (`SQLiteBackend`), the RAG selection loop of `MemoryBackend`,
and the similarity-based sync engine (`DataSyncManager`).

Modelling conventions:
* Python strings are lists of Unicode code points (`Str := List Char`).
* Python `str.lower` is modelled by `Char.toLower` (exact on the ASCII
  and CJK characters the code handles), `str.strip`/`str.split` by the
  whitespace class `Char.isWhitespace`.
* Python ints are `Int` (or `Nat` where the value is a size), floats
  arising from the Jaccard similarity are exact rationals `ℚ`.
* File-system and database state are explicit values (association list
  of project file contents; list of table rows); SQL engine behaviour
  that SQLite leaves to its tokenizer (`LIKE`, FTS5 `MATCH`, `bm25`)
  is an explicit parameter `SqlEngine`.
-/

namespace MemoryMCP

/-- Python strings, one entry per Unicode code point. -/
abbrev Str := List Char

/-- `str.lower()` (ASCII case mapping; identity on CJK, as in Python). -/
def lowerStr (s : Str) : Str := s.map Char.toLower

/-- `str.strip()`: drop leading and trailing whitespace. -/
def pyStrip (s : Str) : Str :=
  ((s.dropWhile Char.isWhitespace).reverse.dropWhile Char.isWhitespace).reverse

/-- Python `needle in hay` (substring containment). -/
def containsSub (needle : Str) : Str → Bool
  | [] => needle.isEmpty
  | c :: rest => needle.isPrefixOf (c :: rest) || containsSub needle rest

/-- Helper for `pyCount`: scan for non-overlapping occurrences of a
non-empty needle, restarting after each match, as `str.count` does.
Structural recursion on a fuel that bounds the remaining length (every
step consumes at least one character, so fuel = length never runs out). -/
def strCountAux (needle : Str) : Nat → Str → Nat
  | _, [] => 0
  | 0, _ => 0
  | fuel + 1, c :: rest =>
    if needle.isPrefixOf (c :: rest) then
      1 + strCountAux needle fuel (rest.drop (needle.length - 1))
    else
      strCountAux needle fuel rest

/-- Python `hay.count(needle)`: number of non-overlapping occurrences;
`hay.count("")` is `len(hay) + 1`, as in Python. -/
def pyCount (needle hay : Str) : Nat :=
  if needle = [] then hay.length + 1 else strCountAux needle hay.length hay

/-- Python `s.split(sep)` for a single-character separator. -/
def splitOnChar (sep : Char) : Str → List Str
  | [] => [[]]
  | c :: rest =>
    match splitOnChar sep rest with
    | [] => [[]]
    | h :: t => if c = sep then [] :: h :: t else (c :: h) :: t

/-- Helper for `splitOnSub`, with the same fuel discipline as
`strCountAux` (the separator is non-empty, so every step consumes at
least one character). -/
def splitOnSubAux (sep : Str) : Nat → Str → List Str
  | _, [] => [[]]
  | 0, l => [l]
  | fuel + 1, c :: rest =>
    if sep.isPrefixOf (c :: rest) then
      [] :: splitOnSubAux sep fuel ((c :: rest).drop sep.length)
    else
      match splitOnSubAux sep fuel rest with
      | [] => [[]]
      | h :: t => (c :: h) :: t

/-- Python `s.split(sep)` for a multi-character separator (used with
`"\n\n"`); non-overlapping, scanning left to right. -/
def splitOnSub (sep : Str) (l : Str) : List Str :=
  if sep = [] then [l] else splitOnSubAux sep l.length l

/-- Python `s.split(sep, 1)` when `sep` occurs in `s`: the pieces before
and after the first occurrence (`none` when `sep` does not occur). -/
def splitOnceSub (sep : Str) : Str → Option (Str × Str)
  | [] => if sep = [] then some ([], []) else none
  | c :: rest =>
    if sep.isPrefixOf (c :: rest) then some ([], (c :: rest).drop sep.length)
    else
      match splitOnceSub sep rest with
      | some (a, b) => some (c :: a, b)
      | none => none

/-- Helper for `splitWs`: accumulate the current word (reversed). -/
def splitWsAux : Str → Str → List Str
  | [], cur => if cur = [] then [] else [cur.reverse]
  | c :: rest, cur =>
    if c.isWhitespace then
      if cur = [] then splitWsAux rest [] else cur.reverse :: splitWsAux rest []
    else
      splitWsAux rest (c :: cur)

/-- Python `s.split()` with no argument: split on whitespace runs,
discarding empty pieces. -/
def splitWs (s : Str) : List Str := splitWsAux s []

/-! ## Stable sorting

Python's `list.sort` is stable, and a stable sort by key is uniquely
determined, so an insertion sort that keeps earlier-arrived equal
elements first is an exact model.  `keep y x = true` means an element
`y` already placed may stay in front of the newcomer `x`. -/

/-- Insert `x` after every element `y` with `keep y x = true`. -/
def insertSorted (keep : α → α → Bool) (x : α) : List α → List α
  | [] => [x]
  | y :: ys => if keep y x then y :: insertSorted keep x ys else x :: y :: ys

/-- Stable sort: fold the input left to right into a sorted accumulator. -/
def stableSortBy (keep : α → α → Bool) (l : List α) : List α :=
  l.foldl (fun acc x => insertSorted keep x acc) []

/-- Boolean check that every adjacent pair of a list satisfies `keep`. -/
def chainKeep (keep : α → α → Bool) : List α → Bool
  | [] => true
  | [_] => true
  | a :: b :: t => keep a b && chainKeep keep (b :: t)

theorem length_insertSorted (keep : α → α → Bool) (x : α) (l : List α) :
    (insertSorted keep x l).length = l.length + 1 := by
  induction l with
  | nil => rfl
  | cons y ys ih =>
    simp only [insertSorted]
    split <;> simp [ih]

theorem length_stableSortBy (keep : α → α → Bool) (l : List α) :
    (stableSortBy keep l).length = l.length := by
  suffices h : ∀ (l acc : List α),
      (l.foldl (fun acc x => insertSorted keep x acc) acc).length
        = l.length + acc.length by
    simpa using h l []
  intro l
  induction l with
  | nil => intro acc; simp
  | cons x xs ih =>
    intro acc
    simp only [List.foldl_cons, ih, length_insertSorted, List.length_cons]
    omega

theorem mem_insertSorted (keep : α → α → Bool) (x a : α) (l : List α) :
    a ∈ insertSorted keep x l ↔ a = x ∨ a ∈ l := by
  induction l with
  | nil => simp [insertSorted]
  | cons y ys ih =>
    simp only [insertSorted]
    split
    · simp only [List.mem_cons, ih]
      tauto
    · simp [List.mem_cons]

theorem mem_stableSortBy (keep : α → α → Bool) (l : List α) (a : α) :
    a ∈ stableSortBy keep l ↔ a ∈ l := by
  suffices h : ∀ (l acc : List α),
      a ∈ l.foldl (fun acc x => insertSorted keep x acc) acc
        ↔ a ∈ l ∨ a ∈ acc by
    simpa using h l []
  intro l
  induction l with
  | nil => intro acc; simp
  | cons x xs ih =>
    intro acc
    simp only [List.foldl_cons, ih, mem_insertSorted, List.mem_cons]
    tauto

theorem chainKeep_insertSorted (keep : α → α → Bool)
    (htotal : ∀ a b, keep a b = true ∨ keep b a = true) (x : α) :
    ∀ l : List α, chainKeep keep l = true →
      chainKeep keep (insertSorted keep x l) = true ∧
      (∀ y, keep y x = true → chainKeep keep (y :: l) = true →
        chainKeep keep (y :: insertSorted keep x l) = true) := by
  intro l
  induction l with
  | nil =>
    intro _
    refine ⟨rfl, ?_⟩
    intro y hyx _
    simp [insertSorted, chainKeep, hyx]
  | cons z zs ih =>
    intro hl
    have hzs : chainKeep keep zs = true := by
      cases zs with
      | nil => rfl
      | cons w ws => simp only [chainKeep, Bool.and_eq_true] at hl; exact hl.2
    by_cases hzx : keep z x = true
    · have hpart := ih hzs
      have h1 : chainKeep keep (z :: insertSorted keep x zs) = true :=
        hpart.2 z hzx hl
      refine ⟨?_, ?_⟩
      · simpa [insertSorted, hzx] using h1
      · intro y hyx hyl
        have hyz : keep y z = true := by
          simp only [chainKeep, Bool.and_eq_true] at hyl
          exact hyl.1
        simp only [insertSorted, hzx, if_pos]
        cases hmem : insertSorted keep x zs with
        | nil =>
          have := length_insertSorted keep x zs
          simp [hmem] at this
        | cons w ws =>
          rw [hmem] at h1
          simp only [chainKeep, Bool.and_eq_true] at h1 ⊢
          exact ⟨hyz, h1⟩
    · have hxz : keep x z = true := (htotal x z).resolve_right hzx
      refine ⟨?_, ?_⟩
      · simp only [insertSorted, hzx, if_neg, Bool.false_eq_true, not_false_iff]
        simp only [chainKeep, Bool.and_eq_true]
        exact ⟨hxz, hl⟩
      · intro y hyx _
        simp only [insertSorted, hzx, if_neg, Bool.false_eq_true, not_false_iff]
        simp only [chainKeep, Bool.and_eq_true]
        exact ⟨hyx, hxz, hl⟩

theorem chainKeep_stableSortBy (keep : α → α → Bool)
    (htotal : ∀ a b, keep a b = true ∨ keep b a = true) (l : List α) :
    chainKeep keep (stableSortBy keep l) = true := by
  suffices h : ∀ (l acc : List α), chainKeep keep acc = true →
      chainKeep keep (l.foldl (fun acc x => insertSorted keep x acc) acc) = true by
    exact h l [] rfl
  intro l
  induction l with
  | nil => intro acc h; simpa using h
  | cons x xs ih =>
    intro acc h
    simp only [List.foldl_cons]
    exact ih _ (chainKeep_insertSorted keep htotal x acc h).1

/-! ## Markdown backend (`MarkdownMemoryManager`)

One file per project.  The file store is an association list from the
sanitized project key to the file's text. -/

/-- `PathSafetyUtils.sanitize_project_id_for_path`: keep alphanumerics,
`-`, `_`; map space and tab to `_`; drop everything else; `none` when
the input or the result is empty; truncate to 100 characters. -/
def sanitize_project_id_for_path (project_id : Str) : Option Str :=
  if project_id = [] then none
  else
    let safe := project_id.filterMap (fun c =>
      if c.isAlphanum || c = '-' || c = '_' then some c
      else if c = ' ' || c = '\t' then some '_'
      else none)
    if safe = [] then none else some (safe.take 100)

/-- The flat-file store: sanitized project key ↦ file content. -/
abbrev FileStore := List (Str × Str)

def fsLookup (fs : FileStore) (key : Str) : Option Str :=
  (fs.find? (fun kv => decide (kv.1 = key))).map Prod.snd

def fsUpdate (fs : FileStore) (key content : Str) : FileStore :=
  match fs with
  | [] => [(key, content)]
  | kv :: rest =>
    if kv.1 = key then (key, content) :: rest else kv :: fsUpdate rest key content

/-- `MarkdownMemoryManager.get_memory`: read the project's file. -/
def markdown_get_memory (fs : FileStore) (project_id : Str) : Option Str :=
  match sanitize_project_id_for_path project_id with
  | none => none
  | some key => fsLookup fs key

/-- One parsed entry block of a project file
(`_parse_memory_sections` output element). -/
structure MemSection where
  timestamp : Str
  title : Str
  category : Str
  content : Str
deriving DecidableEq

/-- `MarkdownMemoryManager._parse_section_header`: split off the
category after the first `#`, then timestamp and title around the
first `" - "`. -/
def parse_section_header (header : Str) : Str × Str × Str :=
  let hc : Str × Str :=
    match splitOnceSub ['#'] header with
    | some (h, c) => (h, pyStrip c)
    | none => (header, [])
  match splitOnceSub (' ' :: '-' :: [' ']) hc.1 with
  | some (ts, ti) => (pyStrip ts, pyStrip ti, hc.2)
  | none => (pyStrip hc.1, [], hc.2)

/-- Close the currently open section, appending it to the accumulator
(the body is the joined lines, stripped). -/
def closeSection (cur : Option (Str × Str × Str)) (contentLines : List Str)
    (acc : List MemSection) : List MemSection :=
  match cur with
  | none => acc
  | some (ts, ti, cat) =>
    acc ++ [⟨ts, ti, cat, pyStrip (List.intercalate ['\n'] contentLines)⟩]

/-- The line-scanning loop of `_parse_memory_sections`. -/
def parseSectionsGo : List Str → Option (Str × Str × Str) → List Str →
    List MemSection → List MemSection
  | [], cur, content, acc => closeSection cur content acc
  | line :: rest, cur, content, acc =>
    if ('#' :: '#' :: [' ']).isPrefixOf line then
      parseSectionsGo rest (some (parse_section_header (pyStrip (line.drop 3))))
        [] (closeSection cur content acc)
    else if pyStrip line = ('-' :: '-' :: ['-']) then
      parseSectionsGo rest cur content acc
    else
      parseSectionsGo rest cur (content ++ [line]) acc

/-- `MarkdownMemoryManager._parse_memory_sections`. -/
def parse_memory_sections (memory : Str) : List MemSection :=
  parseSectionsGo (splitOnChar '\n' memory) none [] []

/-- One element of `search_memory`'s result list. -/
structure SearchResult where
  timestamp : Str
  title : Str
  category : Str
  content : Str
  relevance : Nat
deriving DecidableEq

/-- The 500-character preview: `content[:500] + "..."` when longer. -/
def truncate500 (s : Str) : Str :=
  if 500 < s.length then s.take 500 ++ ('.' :: '.' :: ['.']) else s

def mkSearchResult (query : Str) (s : MemSection) : SearchResult :=
  ⟨s.timestamp, s.title, s.category, truncate500 s.content,
    pyCount (lowerStr query) (lowerStr s.content)⟩

/-- `MarkdownMemoryManager.search_memory`: case-insensitive substring
filter, relevance = occurrence count, stable sort by relevance
descending, cap at `limit`.  `memory` is the `get_memory` result
(`none` or empty both yield no results, as `if not memory`). -/
def markdown_search_memory (memory : Option Str) (query : Str) (limit : Nat) :
    List SearchResult :=
  match memory with
  | none => []
  | some m =>
    if m = [] then []
    else
      let sections := parse_memory_sections m
      let results := (sections.filter
        (fun s => containsSub (lowerStr query) (lowerStr s.content))).map
          (mkSearchResult query)
      (stableSortBy (fun y x => decide (x.relevance ≤ y.relevance)) results).take limit

/-! ### `save_memory` and its write protocol

`save_memory` appends to an existing file with a plain `open(..., 'a')`
write, and only uses `AtomicFileWriter` (write to a sibling `.tmp`
file, then rename over the target) when the file does not exist yet.
`fail_after = some k` models an I/O failure after `k` characters of
this write have reached the medium: in append mode those characters
are already in the target file; in atomic mode they are in the
temporary file, which is discarded, leaving the target untouched. -/

/-- Which write protocol `save_memory` uses, from the
`if memory_file.exists()` branch. -/
inductive WritePath
  | appendInPlace
  | atomicRewrite
deriving DecidableEq

def save_memory_write_path (file_exists : Bool) : WritePath :=
  if file_exists then .appendInPlace else .atomicRewrite

/-- The entry text built by `save_memory`:
`"\n## {timestamp}"`, `" - {title}"` if non-empty, `" #{category}"`
if non-empty, then `"\n\n{content}\n\n---\n"`. -/
def mkEntry (timestamp title category content : Str) : Str :=
  '\n' :: ('#' :: '#' :: [' ']) ++ timestamp
    ++ (if title ≠ [] then (' ' :: '-' :: [' ']) ++ title else [])
    ++ (if category ≠ [] then (' ' :: ['#']) ++ category else [])
    ++ ('\n' :: ['\n']) ++ content ++ ('\n' :: '\n' :: '-' :: '-' :: '-' :: ['\n'])

/-- The header written when a project file is created. -/
def mkHeader (project_id timestamp : Str) : Str :=
  ("# AI Memory for ").data ++ project_id ++ ('\n' :: ['\n'])
    ++ ("Created: ").data ++ timestamp ++ ('\n' :: ['\n'])

/-- The observable file-store state after `save_memory`, including the
state left behind by a failure mid-write (`fail_after = some k`). -/
def markdown_save_memory_effect (fs : FileStore)
    (project_id timestamp title category content : Str)
    (fail_after : Option Nat) : FileStore :=
  match sanitize_project_id_for_path project_id with
  | none => fs
  | some key =>
    let entry := mkEntry timestamp title category content
    match fsLookup fs key with
    | some old =>
      -- existing file: direct append to the target
      match fail_after with
      | none => fsUpdate fs key (old ++ entry)
      | some k => fsUpdate fs key (old ++ entry.take k)
    | none =>
      -- new file: atomic write of header + entry
      match fail_after with
      | none => fsUpdate fs key (mkHeader project_id timestamp ++ entry)
      | some _ => fs

/-! ### `rename_project`

The Markdown backend's rename reads the file, replaces the first line
when it starts with `"# AI Memory for "`, writes the file back to the
*same* path, and reports `true`.  The file itself is never renamed. -/

def markdown_rename_project (fs : FileStore) (project_id new_name : Str) :
    Bool × FileStore :=
  match sanitize_project_id_for_path project_id with
  | none => (false, fs)
  | some key =>
    match fsLookup fs key with
    | none => (false, fs)
    | some content =>
      let fs' :=
        match splitOnChar '\n' content with
        | [] => fs
        | l0 :: rest =>
          if ("# AI Memory for ").data.isPrefixOf l0 then
            fsUpdate fs key
              (List.intercalate ['\n'] ((("# AI Memory for ").data ++ new_name) :: rest))
          else fs
      (true, fs')

/-! ### `delete_memory_entry` -/

/-- Python truthiness of an optional-string argument. -/
def truthy (o : Option Str) : Bool :=
  match o with
  | some s => !s.isEmpty
  | none => false

/-- Python `int(s)` on a string: optional sign and at least one digit,
surrounded by optional whitespace; `none` when `int` raises. -/
def pyIntOfStr (s : Str) : Option Int :=
  let digitsVal : Str → Int := fun ds =>
    (ds.foldl (fun n c => n * 10 + (c.toNat - 48)) 0 : Nat)
  match pyStrip s with
  | [] => none
  | '-' :: ds =>
    if ds ≠ [] && ds.all Char.isDigit then some (-(digitsVal ds)) else none
  | '+' :: ds =>
    if ds ≠ [] && ds.all Char.isDigit then some (digitsVal ds) else none
  | ds =>
    if ds.all Char.isDigit then some (digitsVal ds) else none

/-- The per-section predicate of `delete_memory_entry`'s loop: when
`entry_id` is supplied the other selectors are never consulted; a
non-numeric `entry_id` matches nothing; otherwise the `elif` chain
checks timestamp containment (case-sensitive) and title / category /
content containment (case-insensitive). -/
def shouldDeleteSection (i : Nat) (s : MemSection)
    (entry_id timestamp title category content_match : Option Str) : Bool :=
  match entry_id with
  | some e =>
    match pyIntOfStr e with
    | some n => decide ((i : Int) = n - 1)
    | none => false
  | none =>
    if truthy timestamp && containsSub (timestamp.getD []) s.timestamp then true
    else if truthy title
        && containsSub (lowerStr (title.getD [])) (lowerStr s.title) then true
    else if truthy category
        && containsSub (lowerStr (category.getD [])) (lowerStr s.category) then true
    else if truthy content_match
        && containsSub (lowerStr (content_match.getD [])) (lowerStr s.content) then true
    else false

/-- The enumerate loop of `delete_memory_entry`: partition the parsed
sections into (deleted, kept), scanning with a running index. -/
def selectDeleted (f : Nat → MemSection → Bool) (i : Nat) :
    List MemSection → List MemSection × List MemSection
  | [] => ([], [])
  | s :: rest =>
    let dk := selectDeleted f (i + 1) rest
    if f i s then (s :: dk.1, dk.2) else (dk.1, s :: dk.2)

/-- Result of `delete_memory_entry` (the file rebuild, which reuses the
atomic-rewrite path, is modelled as succeeding). -/
structure DeleteReport where
  success : Bool
  deleted_count : Nat
  deleted : List MemSection
  remaining : List MemSection
deriving DecidableEq

def markdown_delete_memory_entry (memory : Option Str)
    (entry_id timestamp title category content_match : Option Str) : DeleteReport :=
  match memory with
  | none => ⟨false, 0, [], []⟩
  | some m =>
    if m = [] then ⟨false, 0, [], []⟩
    else
      let sections := parse_memory_sections m
      let dk := selectDeleted
        (fun i s => shouldDeleteSection i s entry_id timestamp title category content_match)
        0 sections
      if dk.1.length = 0 then ⟨false, 0, [], sections⟩
      else ⟨true, dk.1.length, dk.1, dk.2⟩

/-! ## Input validation (`InputValidator`) -/

/-- `InputValidator.validate_query`: strip, reject empty and
over-long (default cap 1000) queries; returns the stripped query. -/
def validate_query (query : Str) : Option Str :=
  let q := pyStrip query
  if q = [] then none
  else if 1000 < q.length then none
  else some q

/-- `InputValidator.validate_project_id`: strip, enforce
`^[a-zA-Z0-9_-]{1,100}$`, reject reserved words. -/
def validate_project_id (project_id : Str) : Option Str :=
  let p := pyStrip project_id
  if p = [] then none
  else if ¬ (p.all (fun c => c.isAlpha || c.isDigit || c = '_' || c = '-')) then none
  else if 100 < p.length then none
  else if lowerStr p ∈ [("global").data, ("system").data, ("admin").data,
      ("root").data, ("config").data] then none
  else some p

/-! ## SQLite backend (`SQLiteBackend`) -/

/-- A row of the `memory_entries` table. -/
structure MemRow where
  project : Str
  title : Str
  category : Str
  entry : Str
  created_at : Str
  updated_at : Str
deriving DecidableEq

/-- Behaviour the code delegates to the SQL engine: `LIKE '%q%'`
matching, FTS5 `MATCH`, and the `bm25` rank. -/
structure SqlEngine where
  likeMatch : Str → Str → Bool
  ftsMatch : Str → MemRow → Bool
  ftsRank : Str → MemRow → Int

/-- Lexicographic comparison of strings by code point (UTF-8 byte order,
which SQLite uses for `ORDER BY` on text, coincides with code-point
order). -/
def strLe : Str → Str → Bool
  | [], _ => true
  | _ :: _, [] => false
  | c :: cs, d :: ds => if c = d then strLe cs ds else decide (c < d)

/-- `SQLiteBackend.search_index`: filter `memory_entries` by project
and `title LIKE %q% OR entry LIKE %q%` (no text condition when the
query is empty), order by `created_at` descending, `LIMIT limit`. -/
def search_index (eng : SqlEngine) (db : List MemRow)
    (project query : Str) (limit : Nat) : List MemRow :=
  let rows := db.filter (fun r =>
    decide (r.project = project)
      && (query.isEmpty || (eng.likeMatch query r.title || eng.likeMatch query r.entry)))
  (stableSortBy (fun y x => strLe x.created_at y.created_at) rows).take limit

/-- The `relevance` field of a SQLite search result: the code stores a
string tag on some paths and a number on others. -/
inductive RelValue
  | tag (s : Str)
  | num (n : Int)
deriving DecidableEq

/-- One element of `SQLiteBackend.search_memory`'s result list. -/
structure SqlSearchResult where
  timestamp : Str
  title : Str
  category : Str
  content : Str
  relevance : RelValue
deriving DecidableEq

/-- `SQLiteBackend._simple_search`: `search_index` results, content
truncated to `summary-or-entry[:300] + '...'` (the rows carry no
`summary` key, so the entry text is used), relevance = the row's
`match_type`, which `search_index` always sets to `"content"`. -/
def sqlite_simple_search (eng : SqlEngine) (db : List MemRow)
    (project query : Str) (limit : Nat) : List SqlSearchResult :=
  (search_index eng db project query limit).map (fun r =>
    ⟨r.created_at, r.title, r.category,
      r.entry.take 300 ++ ('.' :: '.' :: ['.']), RelValue.tag ("content").data⟩)

/-- `SQLiteBackend.search_mem_entries` with a query: FTS5 `MATCH`
filtered by project, ordered by `bm25`, `LIMIT limit`. -/
def search_mem_entries (eng : SqlEngine) (db : List MemRow)
    (project query : Str) (limit : Nat) : List MemRow :=
  let rows := db.filter (fun r => eng.ftsMatch query r && decide (r.project = project))
  (stableSortBy (fun y x => decide (eng.ftsRank query y ≤ eng.ftsRank query x)) rows).take limit

/-- `SQLiteBackend._fallback_search`: `search_mem_entries` results
reformatted with the full entry text and a `'fallback'` tag. -/
def sqlite_fallback_search (eng : SqlEngine) (db : List MemRow)
    (project query : Str) (limit : Nat) : List SqlSearchResult :=
  (search_mem_entries eng db project query limit).map (fun r =>
    ⟨r.created_at, r.title, r.category, r.entry, RelValue.tag ("fallback").data⟩)

/-- The merge/de-duplicate loop of `_hybrid_search`: walk the combined
results, skip `title_timestamp` keys already seen, append otherwise,
and stop once `limit` results have been collected. -/
def hybridDedup (limit : Nat) : List SqlSearchResult → List Str →
    List SqlSearchResult → List SqlSearchResult
  | [], _, acc => acc.reverse
  | r :: rest, seen, acc =>
    let key := r.title ++ ['_'] ++ r.timestamp
    if seen.contains key then hybridDedup limit rest seen acc
    else if limit ≤ acc.length + 1 then (r :: acc).reverse
    else hybridDedup limit rest (key :: seen) (r :: acc)

/-- `SQLiteBackend._hybrid_search`: half-quota index search plus
half-quota fallback scan, de-duplicated and capped at `limit`. -/
def sqlite_hybrid_search (eng : SqlEngine) (db : List MemRow)
    (project query : Str) (limit : Nat) : List SqlSearchResult :=
  hybridDedup limit
    (sqlite_simple_search eng db project query (limit / 2)
      ++ sqlite_fallback_search eng db project query (limit / 2)) [] []

/-- `SQLiteBackend._extract_relevant_content`: keep the paragraphs
containing a query keyword (words longer than 2 characters,
lowercased), truncating the joined text at 800 characters; fall back
to the first 400 characters when no paragraph matches. -/
def extract_relevant_content (content query : Str) : Str :=
  if content = [] then []
  else
    let query_keywords := (splitWs query).filterMap
      (fun w => if 2 < w.length then some (lowerStr w) else none)
    let paragraphs := splitOnSub ('\n' :: ['\n']) content
    let relevant := paragraphs.filter
      (fun p => query_keywords.any (fun k => containsSub k (lowerStr p)))
    if relevant ≠ [] then
      let result := List.intercalate ('\n' :: ['\n']) relevant
      if 800 < result.length then result.take 800 ++ ('.' :: '.' :: ['.']) else result
    else
      if 400 < content.length then content.take 400 ++ ('.' :: '.' :: ['.']) else content

/-- Stage 2 of `_rag_search`: walk the candidates, stop when the
accumulated estimate reaches the hard-coded 1500-token cap or `limit`
results are collected; a candidate whose extracted content does not
fit is skipped and the walk continues.  Returns the selected results
and the accumulated token estimate. -/
def ragSelectGo (query : Str) (limit : Nat) : List MemRow →
    List SqlSearchResult → Nat → List SqlSearchResult × Nat
  | [], acc, tot => (acc, tot)
  | c :: rest, acc, tot =>
    if 1500 ≤ tot || limit ≤ acc.length then (acc, tot)
    else
      let relevant_content := extract_relevant_content c.entry query
      let content_tokens := relevant_content.length / 4
      if tot + content_tokens ≤ 1500 then
        ragSelectGo query limit rest
          (acc ++ [⟨c.created_at, c.title, c.category, relevant_content, RelValue.num 0⟩])
          (tot + content_tokens)
      else
        ragSelectGo query limit rest acc tot

/-- `SQLiteBackend._rag_search`: stage 1 fetches `limit * 3` index
candidates; stage 2 walks at most `limit * 2` of them through
`ragSelectGo`. -/
def sqlite_rag_search_full (eng : SqlEngine) (db : List MemRow)
    (project query : Str) (limit : Nat) : List SqlSearchResult × Nat :=
  let candidates := search_index eng db project query (limit * 3)
  ragSelectGo query limit (candidates.take (limit * 2)) [] 0

def sqlite_rag_search (eng : SqlEngine) (db : List MemRow)
    (project query : Str) (limit : Nat) : List SqlSearchResult :=
  (sqlite_rag_search_full eng db project query limit).1

/-! ### The query router -/

/-- The three retrieval strategies of `_analyze_query_type`. -/
inductive QueryType
  | simple_lookup
  | complex_question
  | hybrid
deriving DecidableEq

/-- The listing/enumeration keyword list of `_analyze_query_type`. -/
def simple_keywords : List Str :=
  [("列表").data, ("list").data, ("有哪些").data, ("找到").data, ("find").data,
   ("搜尋").data, ("search").data, ("顯示").data, ("show").data, ("查看").data,
   ("view").data, ("所有").data, ("all").data, ("專案").data, ("project").data]

/-- The causal/explanatory keyword list of `_analyze_query_type`. -/
def complex_keywords : List Str :=
  [("為什麼").data, ("why").data, ("如何").data, ("how").data, ("解釋").data,
   ("explain").data, ("分析").data, ("analyze").data, ("實現").data,
   ("implement").data, ("原理").data, ("principle").data, ("流程").data,
   ("process").data, ("步驟").data, ("step").data]

/-- `SQLiteBackend._analyze_query_type`: keyword checks on the
lowercased query, then the length thresholds (`> 50` complex,
`< 15` simple, otherwise hybrid). -/
def analyze_query_type (query : Str) : QueryType :=
  let query_lower := lowerStr query
  if simple_keywords.any (fun k => containsSub k query_lower) then .simple_lookup
  else if complex_keywords.any (fun k => containsSub k query_lower) then .complex_question
  else if 50 < query.length then .complex_question
  else if query.length < 15 then .simple_lookup
  else .hybrid

/-- `SQLiteBackend.search_memory`: validate the inputs (a validation
failure returns `[]`), clamp `limit` to 10 unless it lies in 1..100,
classify the query, and dispatch to the matching strategy. -/
def sqlite_search_memory (eng : SqlEngine) (db : List MemRow)
    (project_id query : Str) (limit : Int) : List SqlSearchResult :=
  match validate_project_id project_id, validate_query query with
  | some p, some q =>
    let lim : Nat := if limit < 1 || 100 < limit then 10 else limit.toNat
    match analyze_query_type q with
    | .simple_lookup => sqlite_simple_search eng db p q lim
    | .complex_question => sqlite_rag_search eng db p q lim
    | .hybrid => sqlite_hybrid_search eng db p q lim
  | _, _ => []

/-- `SQLiteBackend.rename_project`: report `false` when no row has the
old project value, otherwise relabel every such row (touching
`updated_at`) and report `true`. -/
def sqlite_rename_project (db : List MemRow) (old new_name now : Str) :
    Bool × List MemRow :=
  let cnt := (db.filter (fun r => decide (r.project = old))).length
  if cnt = 0 then (false, db)
  else
    let db' := db.map (fun r =>
      if r.project = old then { r with project := new_name, updated_at := now } else r)
    if 0 < cnt then (true, db') else (false, db')

/-! ## `MemoryBackend.rag_query`

The base-class RAG query retrieves `search_memory` results, then
selects a prefix of the first `context_limit` of them under the
`max_tokens` budget, estimating `len(content) // 4` tokens per
document. -/

/-- A retrieved document as `rag_query` sees it: the content text is
`doc.get('entry', doc.get('content', ''))`. -/
structure RagDoc where
  entry : Option Str
  content : Str
deriving DecidableEq

def ragDocContent (d : RagDoc) : Str := d.entry.getD d.content

/-- The selection loop of `rag_query`: add documents while the running
estimate stays within the budget, and stop at the first document that
does not fit. -/
def ragQueryLoop (max_tokens : Nat) : List RagDoc → List RagDoc → Nat →
    List RagDoc × Nat
  | [], sel, tot => (sel, tot)
  | d :: rest, sel, tot =>
    let content_tokens := (ragDocContent d).length / 4
    if tot + content_tokens ≤ max_tokens then
      ragQueryLoop max_tokens rest (sel ++ [d]) (tot + content_tokens)
    else
      (sel, tot)

def rag_query_select (relevant_docs : List RagDoc)
    (context_limit max_tokens : Nat) : List RagDoc × Nat :=
  ragQueryLoop max_tokens (relevant_docs.take context_limit) [] 0

/-- The fields of `rag_query`'s success payload that the budget claim
is about. -/
structure RagResult where
  context_count : Nat
  estimated_tokens : Nat
deriving DecidableEq

/-- `MemoryBackend.rag_query`: `none` models the `no_context` response
(which carries no `estimated_tokens`); otherwise the bundle built from
the selection loop. -/
def rag_query (relevant_docs : List RagDoc) (context_limit max_tokens : Nat) :
    Option RagResult :=
  if relevant_docs = [] then none
  else
    some ⟨(rag_query_select relevant_docs context_limit max_tokens).1.length,
          (rag_query_select relevant_docs context_limit max_tokens).2⟩

/-! ## Sync engine (`DataSyncManager`) -/

/-- The lowercased whitespace-token set of a text. -/
def wordSet (content : Str) : Finset Str := (splitWs (lowerStr content)).toFinset

/-- `DataSyncManager.calculate_similarity`: Jaccard similarity of the
lowercased whitespace-token sets, with the empty-set conventions of
the code.  The Python float arithmetic is exact here (`n/n`, `0.0`,
`1.0`), so rationals are a faithful model. -/
def calculate_similarity (content1 content2 : Str) : ℚ :=
  if wordSet content1 = ∅ ∧ wordSet content2 = ∅ then 1
  else if wordSet content1 = ∅ ∨ wordSet content2 = ∅ then 0
  else if 0 < (wordSet content1 ∪ wordSet content2).card then
    (((wordSet content1 ∩ wordSet content2).card : ℚ)
      / ((wordSet content1 ∪ wordSet content2).card : ℚ))
  else 0

/-- Sync modes. -/
inductive SyncMode
  | preview
  | auto
  | interactive
deriving DecidableEq

/-- The observable decision of a sync step on one project: whether the
existing target project's content was replaced, and under which
project id source content was imported (if any). -/
structure SyncDecision where
  overwrote_existing : Bool
  imported_under : Option Str
deriving DecidableEq

/-- `DataSyncManager.import_project`: in preview mode nothing is
written; otherwise the parsed source entries are saved under the given
project id. -/
def import_project_target (project_id : Str) (mode : SyncMode) : Option Str :=
  match mode with
  | .preview => none
  | _ => some project_id

/-- `DataSyncManager.handle_existing_project`: preview reports only;
`similarity > threshold` merges into the existing project (both in
`auto` and `interactive` mode); otherwise the source is imported under
`{project_id}-markdown-import`. -/
def handle_existing_project (project_id markdown_content sqlite_content : Str)
    (mode : SyncMode) (similarity_threshold : ℚ) : SyncDecision :=
  let similarity := calculate_similarity markdown_content sqlite_content
  match mode with
  | .preview => ⟨false, none⟩
  | _ =>
    if similarity_threshold < similarity then ⟨true, none⟩
    else
      let new_project_id := project_id ++ ("-markdown-import").data
      ⟨false, import_project_target new_project_id mode⟩

/-! ## Theorems -/

/-- C5: the `DataSyncManager.calculate_similarity` function satisfies
all four similarity laws: `similarity(a, a) = 1` for every text,
`similarity("", "") = 1`, `similarity("", b) = 0` whenever `b`'s token
set is non-empty, and symmetry. -/
theorem calculate_similarity_laws :
    (∀ a : Str, calculate_similarity a a = 1) ∧
    calculate_similarity [] [] = 1 ∧
    (∀ b : Str, wordSet b ≠ ∅ → calculate_similarity [] b = 0) ∧
    (∀ a b : Str, calculate_similarity a b = calculate_similarity b a) := by
  refine ⟨?_, ?_, ?_, ?_⟩
  · intro a
    by_cases hw : wordSet a = ∅
    · simp [calculate_similarity, hw]
    · have hpos : 0 < (wordSet a).card :=
        Finset.card_pos.mpr (Finset.nonempty_of_ne_empty hw)
      unfold calculate_similarity
      rw [if_neg (by simp [hw]), if_neg (by simp [hw]), Finset.inter_self,
        Finset.union_self, if_pos hpos]
      exact div_self (by exact_mod_cast hpos.ne')
  · decide
  · intro b hb
    have h1 : wordSet ([] : Str) = (∅ : Finset Str) := rfl
    simp [calculate_similarity, h1, hb]
  · intro a b
    by_cases h1 : wordSet a = ∅ <;> by_cases h2 : wordSet b = ∅ <;>
      simp [calculate_similarity, h1, h2, Finset.inter_comm, Finset.union_comm]

/-- Witness for `calculate_similarity_laws` at a concrete non-empty
text. -/
theorem calculate_similarity_laws_witness :
    calculate_similarity [] ['x'] = 0 :=
  calculate_similarity_laws.2.2.1 ['x'] (by decide)

/-- The two sample texts `"aaa"` and `"bbb"` share no token, so their
similarity is `0/2 = 0`. -/
theorem sim_aaa_bbb : calculate_similarity ("aaa").data ("bbb").data = 0 := by
  unfold calculate_similarity
  rw [if_neg (by decide), if_neg (by decide), if_pos (by decide),
    show (wordSet ("aaa").data ∩ wordSet ("bbb").data).card = 0 from by decide]
  simp

/-- C6 counterexample: the derived identifier used when an existing
project has low similarity is `{id}-markdown-import`, not
`{id}-imported` as the claim states. -/
theorem import_suffix_counterexample :
    (handle_existing_project ("demo").data ("aaa").data ("bbb").data
        SyncMode.auto (4/5)).imported_under
      = some (("demo").data ++ ("-markdown-import").data) ∧
    some (("demo").data ++ ("-markdown-import").data)
      ≠ some (("demo").data ++ ("-imported").data) := by
  constructor
  · show (if (4/5 : ℚ) < calculate_similarity ("aaa").data ("bbb").data then
        (⟨true, none⟩ : SyncDecision)
      else ⟨false, import_project_target
        (("demo").data ++ ("-markdown-import").data) SyncMode.auto⟩).imported_under
      = some (("demo").data ++ ("-markdown-import").data)
    rw [sim_aaa_bbb, if_neg (by norm_num : ¬((4:ℚ)/5 < (0:ℚ)))]
    rfl
  · decide

/-- C6 (amended): a non-preview sync of a project that already exists
in the target with similarity at most the threshold does not overwrite
the existing project; it imports the source under
`{id}-markdown-import`. -/
theorem handle_existing_low_similarity (project_id md sq : Str) (mode : SyncMode)
    (threshold : ℚ) (hmode : mode ≠ SyncMode.preview)
    (hsim : calculate_similarity md sq ≤ threshold) :
    handle_existing_project project_id md sq mode threshold
      = ⟨false, some (project_id ++ ("-markdown-import").data)⟩ := by
  cases mode with
  | preview => exact absurd rfl hmode
  | auto =>
    simp only [handle_existing_project]
    rw [if_neg (not_lt.mpr hsim)]
    rfl
  | interactive =>
    simp only [handle_existing_project]
    rw [if_neg (not_lt.mpr hsim)]
    rfl

/-- Witness for `handle_existing_low_similarity` on concrete inputs. -/
theorem handle_existing_low_similarity_witness :
    handle_existing_project ("demo").data ("aaa").data ("bbb").data
        SyncMode.auto (4/5)
      = ⟨false, some (("demo").data ++ ("-markdown-import").data)⟩ :=
  handle_existing_low_similarity ("demo").data ("aaa").data ("bbb").data
    SyncMode.auto (4/5) (by decide) (by rw [sim_aaa_bbb]; norm_num)

theorem ragQueryLoop_le (max_tokens : Nat) :
    ∀ (l sel : List RagDoc) (tot : Nat), tot ≤ max_tokens →
      (ragQueryLoop max_tokens l sel tot).2 ≤ max_tokens := by
  intro l
  induction l with
  | nil => intro sel tot h; exact h
  | cons d rest ih =>
    intro sel tot h
    simp only [ragQueryLoop]
    split
    · rename_i hfit
      exact ih _ _ hfit
    · exact h

theorem ragQueryLoop_sum (max_tokens : Nat) :
    ∀ (l sel : List RagDoc) (tot : Nat),
      tot = (sel.map (fun d => (ragDocContent d).length / 4)).sum →
      (ragQueryLoop max_tokens l sel tot).2
        = ((ragQueryLoop max_tokens l sel tot).1.map
            (fun d => (ragDocContent d).length / 4)).sum := by
  intro l
  induction l with
  | nil => intro sel tot h; exact h
  | cons d rest ih =>
    intro sel tot h
    simp only [ragQueryLoop]
    split
    · exact ih _ _ (by simp [h])
    · exact h

/-- C2: `rag_query`'s reported `estimated_tokens` never exceeds
`max_tokens` (the `no_context` response reports nothing and counts as
0), and it equals the sum over the selected documents of
`len(content) // 4`. -/
theorem rag_query_token_budget (relevant_docs : List RagDoc)
    (context_limit max_tokens : Nat) :
    ((rag_query relevant_docs context_limit max_tokens).map
        RagResult.estimated_tokens).getD 0 ≤ max_tokens ∧
    (rag_query_select relevant_docs context_limit max_tokens).2
      = ((rag_query_select relevant_docs context_limit max_tokens).1.map
          (fun d => (ragDocContent d).length / 4)).sum := by
  constructor
  · simp only [rag_query]
    split
    · simp
    · simpa [rag_query_select] using
        ragQueryLoop_le max_tokens (relevant_docs.take context_limit) [] 0
          (Nat.zero_le _)
  · simpa [rag_query_select] using
      ragQueryLoop_sum max_tokens (relevant_docs.take context_limit) [] 0 (by simp)

/-- C1 counterexample: `save_memory` on an existing project file
appends directly to the target, so an I/O failure after 3 characters
of the entry have been written leaves the file in a state that is
neither the pre-write content nor the complete post-write content. -/
theorem save_append_partial_counterexample :
    save_memory_write_path true = WritePath.appendInPlace ∧
    fsLookup (markdown_save_memory_effect [(("demo").data, ("# old").data)]
        ("demo").data ("T").data [] [] ("body").data (some 3)) ("demo").data
      ≠ some ("# old").data ∧
    fsLookup (markdown_save_memory_effect [(("demo").data, ("# old").data)]
        ("demo").data ("T").data [] [] ("body").data (some 3)) ("demo").data
      ≠ some (("# old").data ++ mkEntry ("T").data [] [] ("body").data) := by
  refine ⟨rfl, ?_, ?_⟩
  · decide
  · decide

theorem fsLookup_cons (kv : Str × Str) (fs : FileStore) (key : Str) :
    fsLookup (kv :: fs) key = if kv.1 = key then some kv.2 else fsLookup fs key := by
  simp only [fsLookup, List.find?]
  by_cases h : kv.1 = key <;> simp [h]

theorem fsLookup_fsUpdate (fs : FileStore) (key v : Str) :
    fsLookup (fsUpdate fs key v) key = some v := by
  induction fs with
  | nil => simp [fsUpdate, fsLookup_cons, fsLookup]
  | cons kv rest ih =>
    simp only [fsUpdate]
    by_cases h : kv.1 = key
    · simp [h, fsLookup_cons]
    · simp [h, fsLookup_cons, ih]

/-- C1 (amended): only the new-file creation path of `save_memory`
(and the rebuild paths) goes through the atomic-rewrite protocol — a
failure there leaves the store unchanged — while appending to an
existing file writes directly to the target, so a failure after `k`
characters (`0 < k < len(entry)`) leaves the target file in a state
that differs from both the pre-write and the complete post-write
content. -/
theorem markdown_save_crash_behavior (fs : FileStore)
    (pid ts ti cat content key : Str) (k : Nat)
    (hkey : sanitize_project_id_for_path pid = some key) :
    (fsLookup fs key = none →
      markdown_save_memory_effect fs pid ts ti cat content (some k) = fs) ∧
    (∀ old, fsLookup fs key = some old → 0 < k →
      k < (mkEntry ts ti cat content).length →
      fsLookup (markdown_save_memory_effect fs pid ts ti cat content (some k)) key
        ≠ some old ∧
      fsLookup (markdown_save_memory_effect fs pid ts ti cat content (some k)) key
        ≠ some (old ++ mkEntry ts ti cat content)) := by
  constructor
  · intro hnone
    simp [markdown_save_memory_effect, hkey, hnone]
  · intro old hold hk hklen
    have heff : markdown_save_memory_effect fs pid ts ti cat content (some k)
        = fsUpdate fs key (old ++ (mkEntry ts ti cat content).take k) := by
      simp [markdown_save_memory_effect, hkey, hold]
    rw [heff, fsLookup_fsUpdate]
    constructor
    · intro h
      have hlen := congrArg List.length (Option.some.inj h)
      simp only [List.length_append, List.length_take] at hlen
      omega
    · intro h
      have hlen := congrArg List.length (Option.some.inj h)
      simp only [List.length_append, List.length_take] at hlen
      omega

/-- Witness for `markdown_save_crash_behavior` at a concrete store. -/
theorem markdown_save_crash_behavior_witness :
    fsLookup (markdown_save_memory_effect [(("demo").data, ("X").data)]
        ("demo").data ("T").data [] [] ("B").data (some 1)) ("demo").data
      ≠ some ("X").data :=
  ((markdown_save_crash_behavior [(("demo").data, ("X").data)] ("demo").data
      ("T").data [] [] ("B").data ("demo").data 1 (by decide)).2 ("X").data
      (by decide) (by decide) (by decide)).1

/-- A one-project file store used to exhibit the Markdown rename
behaviour. -/
def renameDemoStore : FileStore :=
  [(("demo").data, ("# AI Memory for demo\n\n## T\n\nbody\n\n---\n").data)]

/-- C4 counterexample: the Markdown backend's `rename_project` returns
`true` but only rewrites the title line inside the file; the entries
are still addressable only under the old project id, and nothing is
addressable under the new one. -/
theorem markdown_rename_counterexample :
    (markdown_rename_project renameDemoStore ("demo").data ("renamed").data).1 = true ∧
    markdown_get_memory
        (markdown_rename_project renameDemoStore ("demo").data ("renamed").data).2
        ("renamed").data = none ∧
    (markdown_get_memory
        (markdown_rename_project renameDemoStore ("demo").data ("renamed").data).2
        ("demo").data).isSome = true := by
  refine ⟨?_, ?_, ?_⟩ <;> decide

theorem fsUpdate_map_fst (fs : FileStore) (key v : Str)
    (h : fsLookup fs key = some v') :
    (fsUpdate fs key v).map Prod.fst = fs.map Prod.fst := by
  induction fs with
  | nil => simp [fsLookup] at h
  | cons kv rest ih =>
    rw [fsLookup_cons] at h
    simp only [fsUpdate]
    by_cases hk : kv.1 = key
    · simp [hk]
    · rw [if_neg hk] at h
      simp [hk, ih h]

/-- C4 (amended): the SQLite backend's `rename_project` does atomically
relabel: when it returns `true` and the names differ, every row
previously under `old` is afterwards present under `new_name` and no
row remains under `old`.  The Markdown backend's `rename_project`,
however, never changes the set of project keys — it only rewrites the
title line inside the file, so entries stay addressable under the old
id only. -/
theorem rename_project_relabel (db : List MemRow) (old new_name now : Str)
    (hne : old ≠ new_name) (fs : FileStore) (pid nn : Str) :
    ((sqlite_rename_project db old new_name now).1 = true →
      (∀ r ∈ db, r.project = old →
        { r with project := new_name, updated_at := now }
          ∈ (sqlite_rename_project db old new_name now).2) ∧
      (∀ r ∈ (sqlite_rename_project db old new_name now).2, r.project ≠ old)) ∧
    (markdown_rename_project fs pid nn).2.map Prod.fst = fs.map Prod.fst := by
  constructor
  · intro htrue
    by_cases hcnt : (db.filter (fun r => decide (r.project = old))).length = 0
    · simp [sqlite_rename_project, hcnt] at htrue
    · have heq : (sqlite_rename_project db old new_name now).2
          = db.map (fun r =>
              if r.project = old then { r with project := new_name, updated_at := now } else r) := by
        simp [sqlite_rename_project, hcnt, Nat.pos_of_ne_zero hcnt]
      constructor
      · intro r hr hrold
        rw [heq]
        exact List.mem_map.mpr ⟨r, hr, by simp [hrold]⟩
      · intro r hr
        rw [heq] at hr
        rcases List.mem_map.mp hr with ⟨s, _, rfl⟩
        by_cases hs : s.project = old
        · simpa [hs] using fun contra => hne contra.symm
        · simp [hs]
  · cases hsan : sanitize_project_id_for_path pid with
    | none => simp [markdown_rename_project, hsan]
    | some key =>
      cases hlook : fsLookup fs key with
      | none => simp [markdown_rename_project, hsan, hlook]
      | some content =>
        simp only [markdown_rename_project, hsan, hlook]
        cases hsplit : splitOnChar '\n' content with
        | nil => rfl
        | cons l0 rest =>
          by_cases hpre : (("# AI Memory for ").data).isPrefixOf l0 = true
          · simp [hpre, fsUpdate_map_fst fs key _ hlook]
          · simp [hpre]

/-- Witness for `rename_project_relabel` at concrete inputs. -/
theorem rename_project_relabel_witness :
    (markdown_rename_project renameDemoStore ("demo").data ("r2").data).2.map Prod.fst
      = renameDemoStore.map Prod.fst :=
  (rename_project_relabel [] ("a").data ("b").data ("t").data (by decide)
    renameDemoStore ("demo").data ("r2").data).2

/-- C3 counterexample: the query `"abc"` contains no listing keyword
and no causal keyword, and its length is not above the
complex-question threshold (50), yet the router classifies it as
`simple_lookup` rather than `hybrid`, because of the additional
`len(query) < 15` rule. -/
theorem short_query_not_hybrid_counterexample :
    simple_keywords.all (fun k => !(containsSub k (lowerStr ("abc").data))) = true ∧
    complex_keywords.all (fun k => !(containsSub k (lowerStr ("abc").data))) = true ∧
    ("abc").data.length ≤ 50 ∧
    analyze_query_type ("abc").data = QueryType.simple_lookup := by
  refine ⟨?_, ?_, ?_, ?_⟩ <;> decide

/-- C3 (amended): a query containing no listing keyword and no causal
keyword is classified as hybrid — and `search_memory` dispatches it to
the hybrid strategy — exactly when its length is between 15 and 50
inclusive; shorter keyword-free queries go to `simple_lookup`. -/
theorem midlength_query_hybrid (q : Str)
    (hs : simple_keywords.all (fun k => !(containsSub k (lowerStr q))) = true)
    (hc : complex_keywords.all (fun k => !(containsSub k (lowerStr q))) = true)
    (hlen : q.length ≤ 50) (hlen2 : 15 ≤ q.length) :
    analyze_query_type q = QueryType.hybrid ∧
    (∀ (eng : SqlEngine) (db : List MemRow) (project_id query : Str) (limit : Int) (p : Str),
      validate_project_id project_id = some p → validate_query query = some q →
      sqlite_search_memory eng db project_id query limit
        = sqlite_hybrid_search eng db p q
            (if limit < 1 || 100 < limit then 10 else limit.toNat)) := by
  have hany_s : simple_keywords.any (fun k => containsSub k (lowerStr q)) = false := by
    rw [List.any_eq_false]
    intro k hk
    have := List.all_eq_true.mp hs k hk
    simpa using this
  have hany_c : complex_keywords.any (fun k => containsSub k (lowerStr q)) = false := by
    rw [List.any_eq_false]
    intro k hk
    have := List.all_eq_true.mp hc k hk
    simpa using this
  have hclass : analyze_query_type q = QueryType.hybrid := by
    unfold analyze_query_type
    rw [if_neg (by simp [hany_s]), if_neg (by simp [hany_c]),
      if_neg (by omega), if_neg (by omega)]
  refine ⟨hclass, ?_⟩
  intro eng db project_id query limit p hp hq
  simp [sqlite_search_memory, hp, hq, hclass]

/-- Witness for `midlength_query_hybrid` on a concrete 15-character
keyword-free query. -/
theorem midlength_query_hybrid_witness :
    analyze_query_type ("abc def ghi jkl").data = QueryType.hybrid :=
  (midlength_query_hybrid ("abc def ghi jkl").data
    (by decide) (by decide) (by decide) (by decide)).1

/-- An SQL engine whose `LIKE` and `MATCH` accept everything — the
simplest instantiation of the behaviour SQLite leaves unspecified. -/
def ragEngAll : SqlEngine := ⟨fun _ _ => true, fun _ _ => true, fun _ _ => 0⟩

/-- A single-paragraph entry containing the query term `why`, 400
characters: its extracted snippet costs `400 // 4 = 100` tokens. -/
def ragEntry100 : Str := List.replicate 397 'a' ++ ("why").data

/-- 404 characters: its extracted snippet costs 101 tokens. -/
def ragEntry101 : Str := List.replicate 401 'a' ++ ("why").data

/-- 40 characters: its extracted snippet costs 10 tokens. -/
def ragEntry10 : Str := List.replicate 37 'a' ++ ("why").data

def ragRow (c : Char) (e : Str) : MemRow := ⟨("p").data, [], [], e, [c], []⟩

set_option maxRecDepth 1000000

/-- Sixteen candidates ranked by `created_at` descending: fourteen
costing 100 tokens, then one costing 101 (which no longer fits in the
1500-token budget after the first fourteen), then one costing 10. -/
def ragDb : List MemRow :=
  [ragRow 'z' ragEntry100, ragRow 'y' ragEntry100, ragRow 'x' ragEntry100,
   ragRow 'w' ragEntry100, ragRow 'v' ragEntry100, ragRow 'u' ragEntry100,
   ragRow 't' ragEntry100, ragRow 's' ragEntry100, ragRow 'r' ragEntry100,
   ragRow 'q' ragEntry100, ragRow 'p' ragEntry100, ragRow 'o' ragEntry100,
   ragRow 'n' ragEntry100, ragRow 'm' ragEntry100, ragRow 'l' ragEntry101,
   ragRow 'k' ragEntry10]

/-- C7 counterexample: after fourteen 100-token snippets (1400 tokens),
the candidate ranked 15th (`created_at = "l"`, 101 tokens) does not
fit and is skipped — but the walk does not stop there: the candidate
ranked 16th (`"k"`, 10 tokens) is still added, so a candidate later in
ranked order than the first non-fitting candidate appears in the
result, and the accumulated estimate ends at 1410. -/
theorem rag_walk_continues_counterexample :
    (sqlite_rag_search ragEngAll ragDb ("p").data ("why").data 16).map
        (fun r => r.timestamp)
      = [['z'],['y'],['x'],['w'],['v'],['u'],['t'],['s'],['r'],['q'],['p'],['o'],
         ['n'],['m'],['k']] ∧
    (sqlite_rag_search_full ragEngAll ragDb ("p").data ("why").data 16).2 = 1410 := by
  constructor
  · decide
  · decide

theorem ragSelectGo_tokens_le (query : Str) (limit : Nat) :
    ∀ (l : List MemRow) (acc : List SqlSearchResult) (tot : Nat), tot ≤ 1500 →
      (ragSelectGo query limit l acc tot).2 ≤ 1500 := by
  intro l
  induction l with
  | nil => intro acc tot h; exact h
  | cons c rest ih =>
    intro acc tot h
    simp only [ragSelectGo]
    split
    · exact h
    · split
      · rename_i hfit
        exact ih _ _ hfit
      · exact ih _ _ h

theorem ragSelectGo_length_le (query : Str) (limit : Nat) :
    ∀ (l : List MemRow) (acc : List SqlSearchResult) (tot : Nat),
      acc.length ≤ limit →
      (ragSelectGo query limit l acc tot).1.length ≤ limit := by
  intro l
  induction l with
  | nil => intro acc tot h; exact h
  | cons c rest ih =>
    intro acc tot h
    simp only [ragSelectGo]
    split
    · exact h
    · rename_i hcont
      have hlt : acc.length < limit := by
        simp only [Bool.or_eq_true, decide_eq_true_eq, not_or] at hcont
        omega
      split
      · exact ih _ _ (by simp; omega)
      · exact ih _ _ h

theorem ragSelectGo_sublist (query : Str) (limit : Nat) :
    ∀ (l : List MemRow) (acc : List SqlSearchResult) (tot : Nat),
      ((ragSelectGo query limit l acc tot).1.map (fun r => r.timestamp)).Sublist
        (acc.map (fun r => r.timestamp) ++ l.map (fun r => r.created_at)) := by
  intro l
  induction l with
  | nil =>
    intro acc tot
    simp [ragSelectGo]
  | cons c rest ih =>
    intro acc tot
    simp only [ragSelectGo]
    split
    · exact List.sublist_append_left _ _
    · split
      · have h := ih (acc ++
          [⟨c.created_at, c.title, c.category, extract_relevant_content c.entry query,
            RelValue.num 0⟩]) (tot + (extract_relevant_content c.entry query).length / 4)
        simpa [List.map_append, List.append_assoc] using h
      · have h := ih acc tot
        refine h.trans ?_
        refine List.Sublist.append_left ?_ _
        exact List.sublist_cons_of_sublist _ (List.Sublist.refl _)

/-- C7 (amended): stage 2 of `_rag_search` skips a candidate whose
snippet would exceed the 1500-token budget and continues to later
candidates; it stops only when the accumulated estimate reaches 1500
or `limit` snippets are collected.  The accumulated estimate never
exceeds 1500, at most `limit` snippets are returned, and the returned
snippets are a subsequence of the ranked candidate list (so ranked
order is preserved). -/
theorem rag_search_budget_and_order (eng : SqlEngine) (db : List MemRow)
    (project query : Str) (limit : Nat) :
    (sqlite_rag_search_full eng db project query limit).2 ≤ 1500 ∧
    (sqlite_rag_search eng db project query limit).length ≤ limit ∧
    ((sqlite_rag_search eng db project query limit).map (fun r => r.timestamp)).Sublist
      ((search_index eng db project query (limit * 3)).map (fun r => r.created_at)) := by
  refine ⟨?_, ?_, ?_⟩
  · exact ragSelectGo_tokens_le query limit _ [] 0 (by omega)
  · exact ragSelectGo_length_le query limit _ [] 0 (by simp)
  · have h := ragSelectGo_sublist query limit
      ((search_index eng db project query (limit * 3)).take (limit * 2)) [] 0
    simp only [List.map_nil, List.nil_append] at h
    refine h.trans ?_
    exact List.Sublist.map _ (List.take_sublist _ _)

theorem chainKeep_iff_chain' (keep : α → α → Bool) :
    ∀ l : List α, chainKeep keep l = true ↔ List.Chain' (fun a b => keep a b = true) l
  | [] => by simp [chainKeep]
  | [a] => by simp [chainKeep]
  | a :: b :: t => by
    rw [List.chain'_cons, ← chainKeep_iff_chain' keep (b :: t)]
    simp [chainKeep]

theorem truncate500_length (s : Str) : (truncate500 s).length ≤ 503 := by
  unfold truncate500
  split
  · simp only [List.length_append, List.length_take, List.length_cons, List.length_nil]
    omega
  · rename_i h
    simp only [not_lt] at h
    omega

/-- The three-entry example file of the relevance-ordering property:
bodies containing "foo" 1, 3 and 5 times, in that order. -/
def fooExampleFile : Str :=
  ("# AI Memory for demo\n\nCreated: T\n\n\n## 2024-01-01 - One\n\nfoo\n\n---\n\n## 2024-01-02 - Three\n\nfoo foo foo\n\n---\n\n## 2024-01-03 - Five\n\nfoo foo foo foo foo\n\n---\n").data

/-- The top-ranked result of searching `fooExampleFile` for "foo". -/
def fooTopResult : SearchResult :=
  ⟨("2024-01-03").data, ("Five").data, [], ("foo foo foo foo foo").data, 5⟩

/-- C8: `MarkdownMemoryManager.search_memory` returns results sorted by
relevance (non-increasing), capped at `limit`; every result stems from
a parsed section whose body contains the lowercased query, carries
relevance equal to the occurrence count of the lowercased query in the
lowercased body, and a preview of at most 500 body characters (503
with the ellipsis); and on the three-entry example file with "foo"
occurring 1, 3 and 5 times the results come back with relevances
5, 3, 1. -/
theorem markdown_search_contract (memory : Option Str) (query : Str) (limit : Nat) :
    List.Chain' (fun a b => b.relevance ≤ a.relevance)
      (markdown_search_memory memory query limit) ∧
    (markdown_search_memory memory query limit).length ≤ limit ∧
    (∀ r ∈ markdown_search_memory memory query limit,
      ∃ s ∈ parse_memory_sections (memory.getD []),
        containsSub (lowerStr query) (lowerStr s.content) = true ∧
        r.relevance = pyCount (lowerStr query) (lowerStr s.content) ∧
        r.content = truncate500 s.content ∧ r.content.length ≤ 503) ∧
    (markdown_search_memory (some fooExampleFile) ("foo").data 10).map
        (fun r => r.relevance) = [5, 3, 1] := by
  have htotal : ∀ a b : SearchResult,
      decide (b.relevance ≤ a.relevance) = true
        ∨ decide (a.relevance ≤ b.relevance) = true := by
    intro a b
    rcases Nat.le_total b.relevance a.relevance with h | h
    · exact Or.inl (by simpa using h)
    · exact Or.inr (by simpa using h)
  have hsorted : ∀ rs : List SearchResult,
      List.Chain' (fun a b => b.relevance ≤ a.relevance)
        (stableSortBy (fun y x => decide (x.relevance ≤ y.relevance)) rs) := by
    intro rs
    have h := chainKeep_stableSortBy
      (fun y x : SearchResult => decide (x.relevance ≤ y.relevance)) htotal rs
    exact ((chainKeep_iff_chain' _ _).mp h).imp (fun a b hab => of_decide_eq_true hab)
  refine ⟨?_, ?_, ?_, ?_⟩
  · match memory with
    | none => simp [markdown_search_memory]
    | some m =>
      simp only [markdown_search_memory]
      split
      · simp
      · exact (hsorted _).take _
  · match memory with
    | none => simp [markdown_search_memory]
    | some m =>
      simp only [markdown_search_memory]
      split
      · simp
      · exact List.length_take_le _ _
  · intro r hr
    match memory with
    | none => simp [markdown_search_memory] at hr
    | some m =>
      simp only [markdown_search_memory] at hr
      by_cases hm : m = []
      · rw [if_pos hm] at hr
        cases hr
      · rw [if_neg hm] at hr
        have hr1 := List.take_subset _ _ hr
        have hr2 := (mem_stableSortBy _ _ _).mp hr1
        rcases List.mem_map.mp hr2 with ⟨s, hs, rfl⟩
        rcases List.mem_filter.mp hs with ⟨hsec, hmatch⟩
        exact ⟨s, by simpa using hsec, hmatch, rfl, rfl, truncate500_length s.content⟩
  · decide

/-- Witness for `markdown_search_contract`: the top-ranked result of the
example search indeed stems from a matching section. -/
theorem markdown_search_contract_witness :
    ∃ s ∈ parse_memory_sections ((some fooExampleFile).getD []),
      containsSub (lowerStr ("foo").data) (lowerStr s.content) = true ∧
      fooTopResult.relevance = pyCount (lowerStr ("foo").data) (lowerStr s.content) ∧
      fooTopResult.content = truncate500 s.content ∧
      fooTopResult.content.length ≤ 503 :=
  (markdown_search_contract (some fooExampleFile) ("foo").data 10).2.2.1
    fooTopResult (by decide)

theorem search_index_length_le (eng : SqlEngine) (db : List MemRow)
    (project query : Str) (limit : Nat) :
    (search_index eng db project query limit).length ≤ limit := by
  simp only [search_index]
  exact List.length_take_le _ _

theorem sqlite_simple_search_length_le (eng : SqlEngine) (db : List MemRow)
    (project query : Str) (limit : Nat) :
    (sqlite_simple_search eng db project query limit).length ≤ limit := by
  simp only [sqlite_simple_search, List.length_map]
  exact search_index_length_le eng db project query limit

theorem sqlite_fallback_search_length_le (eng : SqlEngine) (db : List MemRow)
    (project query : Str) (limit : Nat) :
    (sqlite_fallback_search eng db project query limit).length ≤ limit := by
  simp only [sqlite_fallback_search, search_mem_entries, List.length_map]
  exact List.length_take_le _ _

theorem hybridDedup_length_le (limit : Nat) :
    ∀ (l : List SqlSearchResult) (seen : List Str) (acc : List SqlSearchResult),
      acc.length < limit → (hybridDedup limit l seen acc).length ≤ limit := by
  intro l
  induction l with
  | nil =>
    intro seen acc h
    simpa [hybridDedup] using Nat.le_of_lt h
  | cons r rest ih =>
    intro seen acc h
    simp only [hybridDedup]
    split
    · exact ih _ _ h
    · split
      · rename_i hbreak
        simp only [List.length_reverse, List.length_cons]
        omega
      · rename_i hbreak
        refine ih _ _ ?_
        simp only [not_le] at hbreak
        simpa using hbreak

theorem sqlite_hybrid_search_length_le (eng : SqlEngine) (db : List MemRow)
    (project query : Str) (limit : Nat) (hlim : 1 ≤ limit) :
    (sqlite_hybrid_search eng db project query limit).length ≤ limit :=
  hybridDedup_length_le limit _ [] [] (by simpa using hlim)

/-- C9: `SQLiteBackend.search_memory` clamps any `limit` outside 1..100
to the default 10, behaving exactly as if `limit` were 10; hence no
call ever returns more than 100 results, whatever `limit` the caller
passes. -/
theorem sqlite_search_limit_contract (eng : SqlEngine) (db : List MemRow)
    (project_id query : Str) (limit : Int) :
    ((limit < 1 ∨ 100 < limit) →
      sqlite_search_memory eng db project_id query limit
        = sqlite_search_memory eng db project_id query 10) ∧
    (sqlite_search_memory eng db project_id query limit).length ≤ 100 := by
  constructor
  · intro hbad
    have h1 : (if limit < 1 || 100 < limit then (10 : Nat) else limit.toNat) = 10 := by
      rcases hbad with h | h <;> simp [h]
    unfold sqlite_search_memory
    cases validate_project_id project_id with
    | none => rfl
    | some p =>
      cases validate_query query with
      | none => rfl
      | some q =>
        rw [h1, show (if (10 : Int) < 1 || 100 < (10 : Int) then (10 : Nat)
          else (10 : Int).toNat) = 10 from by decide]
  · unfold sqlite_search_memory
    cases validate_project_id project_id with
    | none => simp
    | some p =>
      cases validate_query query with
      | none => simp
      | some q =>
        have hbounds : 1 ≤ (if limit < 1 || 100 < limit then (10 : Nat) else limit.toNat)
            ∧ (if limit < 1 || 100 < limit then (10 : Nat) else limit.toNat) ≤ 100 := by
          split
          · omega
          · rename_i hcond
            simp only [Bool.or_eq_true, decide_eq_true_eq, not_or, not_lt] at hcond
            omega
        cases hqt : analyze_query_type q with
        | simple_lookup =>
          simp only [hqt]
          exact (sqlite_simple_search_length_le eng db p q _).trans hbounds.2
        | complex_question =>
          simp only [hqt]
          exact (ragSelectGo_length_le q _ _ [] 0 (by simp)).trans hbounds.2
        | hybrid =>
          simp only [hqt]
          exact (sqlite_hybrid_search_length_le eng db p q _ hbounds.1).trans hbounds.2

/-- Witness for `sqlite_search_limit_contract`: a call with
`limit = 500` behaves as one with `limit = 10`. -/
theorem sqlite_search_limit_contract_witness :
    sqlite_search_memory ragEngAll [] ("demo").data ("hello").data 500
      = sqlite_search_memory ragEngAll [] ("demo").data ("hello").data 10 :=
  (sqlite_search_limit_contract ragEngAll [] ("demo").data ("hello").data 500).1
    (Or.inr (by norm_num))

theorem selectDeleted_idx_high (n : Int) :
    ∀ (l : List MemSection) (i : Nat), n - 1 < (i : Int) →
      (selectDeleted (fun j _ => decide ((j : Int) = n - 1)) i l).1 = [] := by
  intro l
  induction l with
  | nil => intro i _; rfl
  | cons s rest ih =>
    intro i h
    simp only [selectDeleted]
    rw [if_neg (by simp; omega)]
    exact ih (i + 1) (by push_cast; omega)

theorem selectDeleted_idx_le_one (n : Int) :
    ∀ (l : List MemSection) (i : Nat),
      (selectDeleted (fun j _ => decide ((j : Int) = n - 1)) i l).1.length ≤ 1 := by
  intro l
  induction l with
  | nil => intro i; simp [selectDeleted]
  | cons s rest ih =>
    intro i
    simp only [selectDeleted]
    split
    · rename_i hidx
      simp only [decide_eq_true_eq] at hidx
      have h0 := selectDeleted_idx_high n rest (i + 1) (by push_cast; omega)
      simp [h0]
    · simpa using ih (i + 1)

theorem selectDeleted_mem (f : Nat → MemSection → Bool) :
    ∀ (l : List MemSection) (i : Nat) (s : MemSection),
      s ∈ (selectDeleted f i l).1 →
      ∃ j : Nat, i ≤ j ∧ f j s = true ∧ l.get? (j - i) = some s := by
  intro l
  induction l with
  | nil => intro i s h; simp [selectDeleted] at h
  | cons hd rest ih =>
    intro i s h
    simp only [selectDeleted] at h
    by_cases hf : f i hd = true
    · rw [if_pos hf] at h
      rcases List.mem_cons.mp h with rfl | hmem
      · exact ⟨i, le_refl i, hf, by simp⟩
      · rcases ih (i + 1) s hmem with ⟨j, hij, hfj, hget⟩
        refine ⟨j, by omega, hfj, ?_⟩
        rw [show j - i = (j - (i + 1)) + 1 from by omega]
        simpa using hget
    · rw [if_neg hf] at h
      rcases ih (i + 1) s h with ⟨j, hij, hfj, hget⟩
      refine ⟨j, by omega, hfj, ?_⟩
      rw [show j - i = (j - (i + 1)) + 1 from by omega]
      simpa using hget

theorem selectDeleted_const (g : MemSection → Bool) :
    ∀ (l : List MemSection) (i : Nat),
      selectDeleted (fun _ s => g s) i l
        = (l.filter g, l.filter (fun s => !g s)) := by
  intro l
  induction l with
  | nil => intro i; rfl
  | cons s rest ih =>
    intro i
    simp only [selectDeleted, ih (i + 1)]
    cases hg : g s <;> simp [hg, List.filter_cons]

/-- The deleted entries of `delete_memory_entry` under an
index-independent selector are exactly the sections matching it. -/
theorem markdown_delete_filter (memory : Option Str)
    (eid ts ti cat cm : Option Str) (g : MemSection → Bool)
    (hfun : (fun i s => shouldDeleteSection i s eid ts ti cat cm)
      = fun _ s => g s) :
    (markdown_delete_memory_entry memory eid ts ti cat cm).deleted
      = (parse_memory_sections (memory.getD [])).filter g := by
  match memory with
  | none => simp [markdown_delete_memory_entry, parse_memory_sections,
      parseSectionsGo, splitOnChar, closeSection]
  | some m =>
    by_cases hm : m = []
    · subst hm
      simp [markdown_delete_memory_entry, parse_memory_sections,
        parseSectionsGo, splitOnChar, closeSection]
    · simp only [markdown_delete_memory_entry, if_neg hm, Option.getD_some]
      rw [hfun, selectDeleted_const]
      split
      · rename_i hlen
        simp only [List.length_eq_zero] at hlen
        simp [hlen]
      · rfl

/-- C10 counterexample: an entry whose timestamp field is `"ABC"` is
*not* deleted by the timestamp selector `"abc"`, although `"abc"` is a
case-insensitive substring of `"ABC"` — the timestamp selector matches
case-sensitively, unlike title/category/content. -/
theorem delete_timestamp_case_counterexample :
    containsSub (lowerStr ("abc").data) (lowerStr ("ABC").data) = true ∧
    (markdown_delete_memory_entry (some (("# H\n\n## ABC\n\nhello\n\n---\n").data))
        none (some ("abc").data) none none none).success = false ∧
    (markdown_delete_memory_entry (some (("# H\n\n## ABC\n\nhello\n\n---\n").data))
        none (some ("abc").data) none none none).deleted_count = 0 := by
  refine ⟨?_, ?_, ?_⟩ <;> decide

/-- A file with two entries whose titles both contain "auth"
case-insensitively. -/
def twoAuthFile : Str :=
  ("# H\n\n## 2024-01-01 - Auth One\n\nbody1\n\n---\n\n## 2024-01-02 - auth two\n\nbody2\n\n---\n").data

/-- C10 (amended): in `delete_memory_entry` the selectors form a fixed
priority chain — a supplied `entry_id` (even non-numeric) makes the
other selectors ignored entirely; a numeric `entry_id` deletes at most
the single entry at that 1-based position; with `entry_id` absent, the
timestamp selector deletes every entry whose timestamp contains it as
a **case-sensitive** substring, while title / category / content
selectors match case-insensitively, possibly deleting several entries
in one call. -/
theorem delete_selector_semantics (memory : Option Str) (e t : Str)
    (ts ti cat cm : Option Str) (n : Int) (hne : t ≠ []) :
    (markdown_delete_memory_entry memory (some e) ts ti cat cm
      = markdown_delete_memory_entry memory (some e) none none none none) ∧
    (pyIntOfStr e = some n →
      (markdown_delete_memory_entry memory (some e) ts ti cat cm).deleted_count ≤ 1 ∧
      ∀ s ∈ (markdown_delete_memory_entry memory (some e) ts ti cat cm).deleted,
        ∃ j : Nat, (j : Int) = n - 1 ∧
          (parse_memory_sections (memory.getD [])).get? j = some s) ∧
    ((markdown_delete_memory_entry memory none (some t) none none none).deleted
      = (parse_memory_sections (memory.getD [])).filter
          (fun s => containsSub t s.timestamp)) ∧
    ((markdown_delete_memory_entry memory none none (some t) none none).deleted
      = (parse_memory_sections (memory.getD [])).filter
          (fun s => containsSub (lowerStr t) (lowerStr s.title))) ∧
    ((markdown_delete_memory_entry memory none none none (some t) none).deleted
      = (parse_memory_sections (memory.getD [])).filter
          (fun s => containsSub (lowerStr t) (lowerStr s.category))) ∧
    ((markdown_delete_memory_entry memory none none none none (some t)).deleted
      = (parse_memory_sections (memory.getD [])).filter
          (fun s => containsSub (lowerStr t) (lowerStr s.content))) ∧
    (markdown_delete_memory_entry (some twoAuthFile) none none (some ("auth").data)
        none none).deleted_count = 2 := by
  have hempty : t.isEmpty = false := by
    cases t with
    | nil => exact absurd rfl hne
    | cons c rest => rfl
  refine ⟨rfl, ?_, ?_, ?_, ?_, ?_, by decide⟩
  · intro hn
    have hfun : (fun i s => shouldDeleteSection i s (some e) ts ti cat cm)
        = fun (i : Nat) (_ : MemSection) => decide ((i : Int) = n - 1) := by
      funext i s
      simp [shouldDeleteSection, hn]
    constructor
    · match memory with
      | none => simp [markdown_delete_memory_entry]
      | some m =>
        by_cases hm : m = []
        · simp [markdown_delete_memory_entry, hm]
        · simp only [markdown_delete_memory_entry, if_neg hm]
          rw [hfun]
          split
          · simp
          · simpa using selectDeleted_idx_le_one n (parse_memory_sections m) 0
    · intro s hs
      match memory with
      | none => simp [markdown_delete_memory_entry] at hs
      | some m =>
        by_cases hm : m = []
        · simp [markdown_delete_memory_entry, hm] at hs
        · simp only [markdown_delete_memory_entry, if_neg hm] at hs
          rw [hfun] at hs
          have hmem : s ∈ (selectDeleted
              (fun (i : Nat) (_ : MemSection) => decide ((i : Int) = n - 1)) 0
              (parse_memory_sections m)).1 := by
            by_cases hlen : (selectDeleted
                (fun (i : Nat) (_ : MemSection) => decide ((i : Int) = n - 1)) 0
                (parse_memory_sections m)).1.length = 0
            · rw [if_pos hlen] at hs
              simp at hs
            · rw [if_neg hlen] at hs
              exact hs
          rcases selectDeleted_mem _ (parse_memory_sections m) 0 s hmem
            with ⟨j, _, hfj, hget⟩
          simp only [decide_eq_true_eq] at hfj
          exact ⟨j, hfj, by simpa using hget⟩
  · refine markdown_delete_filter memory none (some t) none none none _ ?_
    funext i s
    cases hc : containsSub t s.timestamp <;>
      simp [shouldDeleteSection, truthy, hempty, hc]
  · refine markdown_delete_filter memory none none (some t) none none _ ?_
    funext i s
    cases hc : containsSub (lowerStr t) (lowerStr s.title) <;>
      simp [shouldDeleteSection, truthy, hempty, hc]
  · refine markdown_delete_filter memory none none none (some t) none _ ?_
    funext i s
    cases hc : containsSub (lowerStr t) (lowerStr s.category) <;>
      simp [shouldDeleteSection, truthy, hempty, hc]
  · refine markdown_delete_filter memory none none none none (some t) _ ?_
    funext i s
    cases hc : containsSub (lowerStr t) (lowerStr s.content) <;>
      simp [shouldDeleteSection, truthy, hempty, hc]

/-- Witness for `delete_selector_semantics`: the timestamp selector on
a concrete file deletes exactly the (case-sensitively) matching
sections, and a numeric `entry_id` deletes at most one entry. -/
theorem delete_selector_semantics_witness :
    ((markdown_delete_memory_entry (some twoAuthFile) none (some ("2024").data)
        none none none).deleted
      = (parse_memory_sections ((some twoAuthFile).getD [])).filter
          (fun s => containsSub ("2024").data s.timestamp)) ∧
    (markdown_delete_memory_entry (some twoAuthFile) (some ('2' :: [])) none none
        none none).deleted_count ≤ 1 :=
  ⟨(delete_selector_semantics (some twoAuthFile) ('2' :: []) ("2024").data
      none none none none 2 (by decide)).2.2.1,
   ((delete_selector_semantics (some twoAuthFile) ('2' :: []) ("2024").data
      none none none none 2 (by decide)).2.1 (by decide)).1⟩

end MemoryMCP
